import Mathlib

set_option maxHeartbeats 2000000
set_option maxRecDepth 4000

/-!
# Verification of the minitar archive engine

A shallow embedding of `src/minitar.c` and `src/minitar_main.c`.
Bytes are modelled as `Nat` (values `< 256` in any run of the real program),
byte strings and file contents as `List Nat`, and the file system as an
association list from file names to files.  Functions declared in the
repository's missing header `minitar.h` (`write_file_to_archive`,
`write_footer` / `write_tar_footer`, `read_tar_header`,
`file_exists_in_archive`, the `file_list_t` operations) are modelled from the
spec, as marked in their doc comments; everything else is translated directly
from the C sources.
-/

def BLOCK_SIZE : Nat := 512

def NUM_TRAILING_BLOCKS : Nat := 2

/-- `'0' ≤ b ≤ '7'`: the ASCII octal digits, as used by `%o` parsing. -/
def isOctDigitB (b : Nat) : Bool := decide (48 ≤ b) && decide (b ≤ 55)

/-- Value of a string of ASCII octal digits, most significant first
(`"0017" ↦ 15`). -/
def ovalue (ds : List Nat) : Nat := ds.foldl (fun a d => a * 8 + (d - 48)) 0

/-- Octal digit characters of `n`, most significant first, computed with
explicit fuel (64 digits suffice for every value below `8 ^ 64`). -/
def octAux : Nat → Nat → List Nat
  | 0, _ => []
  | fuel + 1, n => if n < 8 then [48 + n] else octAux fuel (n / 8) ++ [48 + n % 8]

def octDigits (n : Nat) : List Nat := octAux 64 n

/-- Zero-pad a digit string on the left to width `w`, as `%0wo` does. -/
def zpad (w : Nat) (ds : List Nat) : List Nat :=
  List.replicate (w - ds.length) 48 ++ ds

/-- `snprintf(buf, w+1, "%0wo", n)`: at most `w` characters (most significant
first, zero-padded to exactly `w`) followed by a NUL terminator. -/
def snprintfOct (w : Nat) (n : Nat) : List Nat :=
  (zpad w (octDigits n)).take w ++ [0]

/-- `strncpy` into a `w`-byte field of a zeroed struct: at most `w` bytes of
the source, the rest of the field left as NUL bytes. -/
def strncpyN (w : Nat) (s : List Nat) : List Nat :=
  s.take w ++ List.replicate (w - s.length) 0

/-- The `tar_header` struct of `minitar.h`.  Modelled from the spec: the
header file is not in `src/`; field names, widths and their order follow the
spec's §3 field table and the POSIX `ustar` layout it names (one 512-byte
block; `linkname`, `prefix` and the trailing padding are the standard `ustar`
fields the table leaves implicit, always zero here). -/
structure tar_header where
  name : List Nat        -- 100 bytes
  mode : List Nat        -- 8 bytes
  uid : List Nat         -- 8 bytes
  gid : List Nat         -- 8 bytes
  size : List Nat        -- 12 bytes
  mtime : List Nat       -- 12 bytes
  chksum : List Nat      -- 8 bytes
  typeflag : Nat         -- 1 byte
  linkname : List Nat    -- 100 bytes
  magic : List Nat       -- 6 bytes
  version : List Nat     -- 2 bytes
  uname : List Nat       -- 32 bytes
  gname : List Nat       -- 32 bytes
  devmajor : List Nat    -- 8 bytes
  devminor : List Nat    -- 8 bytes
  padding : List Nat     -- 167 bytes (155-byte prefix field + 12 padding)
deriving DecidableEq

/-- The 512 raw bytes of the header block, `(char *) header`. -/
def headerBytes (h : tar_header) : List Nat :=
  h.name ++ h.mode ++ h.uid ++ h.gid ++ h.size ++ h.mtime ++ h.chksum ++
    [h.typeflag] ++ h.linkname ++ h.magic ++ h.version ++ h.uname ++ h.gname ++
    h.devmajor ++ h.devminor ++ h.padding

/-- Unsigned sum of raw byte values (the spec's `checksum(headerBytes)`). -/
def usum (bytes : List Nat) : Nat := bytes.foldl (· + ·) 0

/-- Value of a byte read through C's (signed) `char`. -/
def signedVal (b : Nat) : Int := if b < 128 then (b : Int) else (b : Int) - 256

/-- The sum loop of `compute_checksum`: `unsigned sum = 0; sum += bytes[i]`
where `bytes` is a `char *`, so each byte is sign-extended before the
(wrapping, 32-bit unsigned) addition. -/
def csum (bytes : List Nat) : Nat :=
  ((bytes.foldl (fun s b => s + signedVal b) (0 : Int)) % (2 ^ 32 : Int)).toNat

/-- The header with its checksum field set to eight spaces
(`memset(header->chksum, ' ', 8)`). -/
def blankChksum (h : tar_header) : tar_header :=
  { h with chksum := List.replicate 8 32 }

/-- `compute_checksum` (src/minitar.c:31): blank the checksum field to eight
spaces, sum the 512 header bytes through a signed `char` pointer into an
`unsigned`, then `snprintf(header->chksum, 8, "%07o", sum)`. -/
def compute_checksum (h : tar_header) : tar_header :=
  { h with chksum := snprintfOct 7 (csum (headerBytes (blankChksum h))) }

/-- The metadata `fill_tar_header` obtains from `stat`, `getpwuid` and
`getgrgid` for a source file (the success case; a lookup failure makes
`fill_tar_header` return -1 before producing any header). -/
structure FileMeta where
  mode : Nat
  uid : Nat
  gid : Nat
  size : Nat
  mtime : Nat
  devmajor : Nat
  devminor : Nat
  uname : List Nat
  gname : List Nat
deriving DecidableEq

/-- The header record built by `fill_tar_header` (src/minitar.c:47) before
`compute_checksum` runs: struct zeroed by `memset`, then each field written
with `strncpy` / `snprintf` exactly as in the C source.  All numeric
`snprintf` arguments are cast to `unsigned` (32 bits) in the source, hence
the `% 2 ^ 32`; the mode is masked with `07777`. -/
def fill_base (file_name : List Nat) (m : FileMeta) : tar_header where
  name := strncpyN 100 file_name
  mode := snprintfOct 7 (m.mode % 4096)
  uid := snprintfOct 7 (m.uid % 2 ^ 32)
  gid := snprintfOct 7 (m.gid % 2 ^ 32)
  size := snprintfOct 11 (m.size % 2 ^ 32)
  mtime := snprintfOct 11 (m.mtime % 2 ^ 32)
  chksum := List.replicate 8 0
  typeflag := 48                        -- REGTYPE '0'
  linkname := List.replicate 100 0
  magic := [117, 115, 116, 97, 114, 0]  -- strncpy(magic, "ustar", 6)
  version := [48, 48]                   -- memcpy(version, "00", 2)
  uname := strncpyN 32 m.uname
  gname := strncpyN 32 m.gname
  devmajor := snprintfOct 7 (m.devmajor % 2 ^ 32)
  devminor := snprintfOct 7 (m.devminor % 2 ^ 32)
  padding := List.replicate 167 0

/-- `fill_tar_header` (src/minitar.c:47), success case. -/
def fill_tar_header (file_name : List Nat) (m : FileMeta) : tar_header :=
  compute_checksum (fill_base file_name m)

/-- The numeric value stored in a header's checksum field: its octal digits
parsed up to the terminator, as a `%o` scan does. -/
def storedChecksum (h : tar_header) : Nat :=
  ovalue (h.chksum.takeWhile isOctDigitB)

/-! ## The file system and the archive operations -/

/-- A file on disk: the metadata the OS reports for it, and its content. -/
structure SrcFile where
  meta : FileMeta
  content : List Nat
deriving DecidableEq

/-- The local file system: an association list from file names to files. -/
abbrev FileSys := List (List Nat × SrcFile)

def fsLookup : FileSys → List Nat → Option SrcFile
  | [], _ => none
  | (k, f) :: rest, n => if k = n then some f else fsLookup rest n

def fsSet (fs : FileSys) (n : List Nat) (f : SrcFile) : FileSys :=
  match fs with
  | [] => [(n, f)]
  | (k, g) :: rest => if k = n then (n, f) :: rest else (k, g) :: fsSet rest n f

/-- The (irrelevant) metadata the model records for a freshly written
archive file. -/
def emptyMeta : FileMeta := ⟨0, 0, 0, 0, 0, 0, 0, [], []⟩

/-- `stat` reports the file's true content length as `st_size`. -/
def statMeta (f : SrcFile) : FileMeta := { f.meta with size := f.content.length }

/-- Zero bytes needed to pad `n` content bytes to a block boundary. -/
def padLen (n : Nat) : Nat := (512 - n % 512) % 512

/-- The bytes one archive entry occupies: header block, content, zero padding
to the next block boundary. -/
def entryBytes (f : SrcFile) (file_name : List Nat) : List Nat :=
  headerBytes (fill_tar_header file_name (statMeta f)) ++ f.content ++
    List.replicate (padLen f.content.length) 0

/-- Modelled from the spec: `write_file_to_archive` (declared in the missing
`minitar.h`) is the Writer's `writeEntry`: build the header via the codec,
write it, stream the file's bytes, pad with zeros to the block boundary; fail
(writing nothing) when the source file cannot be inspected.  `acc` is the
archive stream's contents so far. -/
def write_file_to_archive (fs : FileSys) (acc : List Nat) (file_name : List Nat) :
    Option (List Nat) :=
  match fsLookup fs file_name with
  | none => none
  | some f => some (acc ++ entryBytes f file_name)

/-- Modelled from the spec: `write_footer` / `write_tar_footer` writes the
two all-zero end-of-archive blocks. -/
def footerBytes : List Nat := List.replicate (BLOCK_SIZE * NUM_TRAILING_BLOCKS) 0

/-- The entry-writing loop of `create_archive` (src/minitar.c:136): write each
file in order; on the first failure close and return -1, leaving on disk the
bytes written so far; on success write the footer and return 0. -/
def create_loop (fs : FileSys) (acc : List Nat) : List (List Nat) → Int × List Nat
  | [] => (0, acc ++ footerBytes)
  | n :: rest =>
    match write_file_to_archive fs acc n with
    | none => (-1, acc)
    | some acc2 => create_loop fs acc2 rest

/-- `create_archive` (src/minitar.c:127): `fopen(archive_name, "wb")` truncates
the target (the model's open always succeeds), then the entry loop runs and
whatever it produced is what is on disk afterwards. -/
def create_archive (fs : FileSys) (archive_name : List Nat)
    (files : List (List Nat)) : Int × FileSys :=
  let r := create_loop fs [] files
  (r.1, fsSet fs archive_name ⟨emptyMeta, r.2⟩)

/-- The truncation arithmetic of `remove_trailing_bytes` (src/minitar.c:111):
`off_t file_size = st_size; if (nbytes > file_size) file_size = 0; else
file_size -= nbytes;`. -/
def truncatedLen (oldLen nbytes : Nat) : Nat :=
  if nbytes > oldLen then 0 else oldLen - nbytes

/-- `remove_trailing_bytes` (src/minitar.c:101): stat the file (error if it
does not exist), then truncate it to `truncatedLen`; the model's `truncate`
always succeeds on an existing file. -/
def remove_trailing_bytes (fs : FileSys) (file_name : List Nat) (nbytes : Nat) :
    Int × FileSys :=
  match fsLookup fs file_name with
  | none => (-1, fs)
  | some f =>
    (0, fsSet fs file_name { f with content := f.content.take (truncatedLen f.content.length nbytes) })

/-- The entry loop of `append_files_to_archive` (src/minitar.c:171): a failed
entry is only logged (`perror`) and the loop continues with the next file. -/
def append_loop (fs : FileSys) (acc : List Nat) : List (List Nat) → List Nat
  | [] => acc
  | n :: rest =>
    match write_file_to_archive fs acc n with
    | none => append_loop fs acc rest
    | some acc2 => append_loop fs acc2 rest

/-- `append_files_to_archive` (src/minitar.c:152): stat the archive (error -1
if missing), remove the trailing `2 * BLOCK_SIZE` bytes, reopen in append
mode (returning 1 if that open fails — unreachable in the model), write each
entry best-effort, write a fresh footer, return 0. -/
def append_files_to_archive (fs : FileSys) (archive_name : List Nat)
    (files : List (List Nat)) : Int × FileSys :=
  match fsLookup fs archive_name with
  | none => (-1, fs)
  | some _ =>
    let r := remove_trailing_bytes fs archive_name (BLOCK_SIZE * NUM_TRAILING_BLOCKS)
    if r.1 = -1 then (-1, r.2)
    else
      match fsLookup r.2 archive_name with
      | none => (1, r.2)
      | some a =>
        (0, fsSet r.2 archive_name ⟨emptyMeta, append_loop r.2 a.content files ++ footerBytes⟩)

/-! ## The archive scanner -/

/-- Modelled from the spec: one step of the Archive Scanner
(`read_tar_header` in the missing `minitar.h`).  Read one block from the
remaining bytes; an all-zero block (or a short read) ends the sequence;
otherwise decode the header — checking that the stored checksum matches the
spec's unsigned byte-sum with the checksum field blanked to spaces — and
yield the entry's NUL-terminated name together with the number of content
bytes to skip (`ceil(size / BLOCK_SIZE) * BLOCK_SIZE`). -/
def read_tar_header (bytes : List Nat) : Option (List Nat × Nat) :=
  if bytes.length < 512 then none
  else
    let block := bytes.take 512
    if block.all (· == 0) then none
    else
      let stored := ovalue (((block.drop 148).take 8).takeWhile isOctDigitB)
      let blanked := block.take 148 ++ List.replicate 8 32 ++ block.drop 156
      if usum blanked = stored then
        let cname := (block.take 100).takeWhile (· ≠ 0)
        let sz := ovalue (((block.drop 124).take 12).takeWhile isOctDigitB)
        some (cname, ((sz + 511) / 512) * 512)
      else none

/-- The scan loop of `file_exists` (src/minitar.c:230), with explicit fuel:
each successful `read_tar_header` consumes at least one full block, so
`bytes.length + 1` units of fuel can never run out. -/
def feAux (target : List Nat) : Nat → List Nat → Int
  | 0, _ => 0
  | fuel + 1, bytes =>
    match read_tar_header bytes with
    | none => 0
    | some (n, skip) => if n = target then -1 else feAux target fuel (bytes.drop (512 + skip))

/-- `file_exists` (src/minitar.c:225): 0 when the archive cannot be opened,
-1 as soon as a scanned entry's name compares equal to `file_name`, 0 when
the scan ends without a match. -/
def file_exists (fs : FileSys) (archive_name file_name : List Nat) : Int :=
  match fsLookup fs archive_name with
  | none => 0
  | some a => feAux file_name (a.content.length + 1) a.content

/-- The names of the entries the Scanner yields from an archive's bytes,
in order, with the same fuel discipline as `feAux`. -/
def scanAux : Nat → List Nat → List (List Nat)
  | 0, _ => []
  | fuel + 1, bytes =>
    match read_tar_header bytes with
    | none => []
    | some (n, skip) => n :: scanAux fuel (bytes.drop (512 + skip))

def scanNames (bytes : List Nat) : List (List Nat) := scanAux (bytes.length + 1) bytes

/-- Modelled from the spec: `file_exists_in_archive` (declared in the missing
`minitar.h`) is the Scanner's existence check, i.e. exactly what
`file_exists` implements. -/
def file_exists_in_archive (fs : FileSys) (archive_name file_name : List Nat) : Int :=
  file_exists fs archive_name file_name

/-- `update_archive` (src/minitar.c:186): the archive-existence check is
commented out in the source; the files whose `file_exists_in_archive` test
says "absent" (result 0) are collected in input order, and if that subset is
non-empty it is handed to `append_files_to_archive`, otherwise nothing
happens and 0 is returned. -/
def update_archive (fs : FileSys) (archive_name : List Nat)
    (files : List (List Nat)) : Int × FileSys :=
  let new_files := files.filter (fun n => file_exists_in_archive fs archive_name n == 0)
  if new_files.length > 0 then append_files_to_archive fs archive_name new_files
  else (0, fs)

/-! ## The command-line driver (src/minitar_main.c) -/

def cmd_c : List Nat := [45, 99]
def cmd_a : List Nat := [45, 97]
def cmd_t : List Nat := [45, 116]
def cmd_u : List Nat := [45, 117]
def cmd_x : List Nat := [45, 120]

/-- `main` (src/minitar_main.c:8): with fewer than 4 arguments it prints the
usage line and returns 0; otherwise it dispatches on `argv[1]` with
`argv[2]` as the archive and the rest as the file list, ignoring every
operation's return value (`-t` and `-x` call unimplemented stubs that change
nothing); an unknown command returns -1; every other path returns 0.
Note `-u` calls `append_files_to_archive`, not `update_archive`. -/
def mainRun (fs : FileSys) (argv : List (List Nat)) : Int × FileSys :=
  match argv with
  | _prog :: cmd :: archive :: f1 :: rest =>
    let files := f1 :: rest
    if cmd = cmd_c then (0, (create_archive fs archive files).2)
    else if cmd = cmd_a then (0, (append_files_to_archive fs archive files).2)
    else if cmd = cmd_t then (0, fs)
    else if cmd = cmd_u then (0, (append_files_to_archive fs archive files).2)
    else if cmd = cmd_x then (0, fs)
    else (-1, fs)
  | _ => (0, fs)

/-- The bytes of the entries `create_archive` writes for `files`, in order
(a name the file system cannot stat contributes nothing; `create_loop` stops
there anyway). -/
def entriesConcat (fs : FileSys) (files : List (List Nat)) : List Nat :=
  (files.map (fun n => match fsLookup fs n with
    | some f => entryBytes f n
    | none => [])).flatten

/-- The spec's footer invariant for an archive's bytes: block-aligned, at
least two blocks long, and equal to a block-aligned payload followed by the
two all-zero footer blocks. -/
def wfBytes (b : List Nat) : Prop :=
  b.length % 512 = 0 ∧ 1024 ≤ b.length ∧
    ∃ p, p.length % 512 = 0 ∧ b = p ++ footerBytes

/-! ## Concrete fixtures used by counterexamples and witnesses -/

/-- ASCII name "a". -/
def aName : List Nat := [97]

/-- ASCII name "b" (no such file in `fs0`). -/
def bName : List Nat := [98]

/-- ASCII name "t", the archive path. -/
def tName : List Nat := [116]

def metaA : FileMeta := ⟨420, 1000, 1000, 0, 0, 0, 0, [117], [103]⟩

/-- A two-byte file "hi". -/
def fileA : SrcFile := ⟨metaA, [104, 105]⟩

def fs0 : FileSys := [(aName, fileA)]

/-- The file system after `create_archive fs0 tName [aName]`. -/
def fs1 : FileSys := (create_archive fs0 tName [aName]).2

/-- Metadata of a 4 GiB source file (`st_size = 2 ^ 32`). -/
def meta32 : FileMeta := ⟨420, 1000, 1000, 2 ^ 32, 0, 0, 0, [117], [103]⟩

/-- The archive entry `create_archive fs0 tName [aName]` writes for `fileA`:
one header block plus one padded content block. -/
def entryA : List Nat := entryBytes fileA aName


/-! ## Octal digit and formatting lemmas -/

theorem isOctDigitB_iff {d : Nat} : isOctDigitB d = true ↔ 48 ≤ d ∧ d ≤ 55 := by
  simp [isOctDigitB]

theorem ovalue_append_last (xs : List Nat) (d : Nat) :
    ovalue (xs ++ [d]) = ovalue xs * 8 + (d - 48) := by
  simp [ovalue, List.foldl_append]

theorem octAux_ovalue : ∀ fuel n, n < 8 ^ fuel → ovalue (octAux fuel n) = n := by
  intro fuel
  induction fuel with
  | zero =>
    intro n h
    have : n = 0 := by simpa using h
    subst this
    rfl
  | succ f ih =>
    intro n h
    by_cases h8 : n < 8
    · simp [octAux, h8, ovalue]
    · have hdiv : n / 8 < 8 ^ f := by
        rw [Nat.div_lt_iff_lt_mul (by norm_num)]
        calc n < 8 ^ (f + 1) := h
          _ = 8 ^ f * 8 := by rw [pow_succ]
      rw [octAux, if_neg h8, ovalue_append_last, ih (n / 8) hdiv]
      omega

theorem octAux_mem : ∀ fuel n d, d ∈ octAux fuel n → 48 ≤ d ∧ d ≤ 55 := by
  intro fuel
  induction fuel with
  | zero => intro n d hd; simp [octAux] at hd
  | succ f ih =>
    intro n d hd
    by_cases h8 : n < 8
    · simp [octAux, h8] at hd
      omega
    · rw [octAux, if_neg h8, List.mem_append] at hd
      rcases hd with hd | hd
      · exact ih (n / 8) d hd
      · have h8' : n % 8 < 8 := Nat.mod_lt _ (by norm_num)
        simp at hd
        omega

theorem octAux_length : ∀ fuel n k, n < 8 ^ k → 0 < k → (octAux fuel n).length ≤ k := by
  intro fuel
  induction fuel with
  | zero => intro n k _ _; simp [octAux]
  | succ f ih =>
    intro n k hk hk0
    by_cases h8 : n < 8
    · simp [octAux, h8]
      omega
    · have hk2 : 2 ≤ k := by
        by_contra hlt
        have hk1 : k = 1 := by omega
        subst hk1
        simp at hk
        exact h8 hk
      have hdiv : n / 8 < 8 ^ (k - 1) := by
        rw [Nat.div_lt_iff_lt_mul (by norm_num)]
        calc n < 8 ^ k := hk
          _ = 8 ^ (k - 1) * 8 := by
            rw [← pow_succ]
            congr 1
            omega
      have := ih (n / 8) (k - 1) hdiv (by omega)
      rw [octAux, if_neg h8, List.length_append]
      simp only [List.length_singleton]
      omega

theorem octDigits_ovalue {n : Nat} (h : n < 8 ^ 64) : ovalue (octDigits n) = n :=
  octAux_ovalue 64 n h

theorem octDigits_mem {n d : Nat} (h : d ∈ octDigits n) : 48 ≤ d ∧ d ≤ 55 :=
  octAux_mem 64 n d h

theorem octDigits_length {n k : Nat} (h : n < 8 ^ k) (hk : 0 < k) :
    (octDigits n).length ≤ k :=
  octAux_length 64 n k h hk

theorem foldl_oct_replicate (k : Nat) :
    List.foldl (fun a d => a * 8 + (d - 48)) 0 (List.replicate k 48) = 0 := by
  induction k with
  | zero => rfl
  | succ k ih => simpa [List.replicate_succ] using ih

theorem ovalue_zpad (w : Nat) (ds : List Nat) : ovalue (zpad w ds) = ovalue ds := by
  simp [zpad, ovalue, List.foldl_append, foldl_oct_replicate]

theorem zpad_length {w : Nat} {ds : List Nat} (h : ds.length ≤ w) :
    (zpad w ds).length = w := by
  simp [zpad]
  omega

theorem zpad_mem {w d : Nat} {ds : List Nat} (h : d ∈ zpad w ds) : d = 48 ∨ d ∈ ds := by
  rcases List.mem_append.mp h with h2 | h2
  · exact Or.inl (List.eq_of_mem_replicate h2)
  · exact Or.inr h2

theorem take_append_self (l t : List Nat) : (l ++ t).take l.length = l := by
  induction l with
  | nil => rfl
  | cons a l ih => simp [ih]

theorem drop_append_self (l t : List Nat) : (l ++ t).drop l.length = t := by
  induction l with
  | nil => rfl
  | cons a l ih => simpa using ih

theorem take_append_eq {l t : List Nat} {k : Nat} (h : l.length = k) :
    (l ++ t).take k = l := by
  subst h
  exact take_append_self l t

theorem drop_append_eq {l t : List Nat} {k : Nat} (h : l.length = k) :
    (l ++ t).drop k = t := by
  subst h
  exact drop_append_self l t

theorem take_of_le_length : ∀ {l : List Nat} {n : Nat}, l.length ≤ n → l.take n = l := by
  intro l
  induction l with
  | nil => intro n _; simp
  | cons a l ih =>
    intro n h
    cases n with
    | zero => simp at h
    | succ n =>
      rw [List.take_succ_cons, ih (by simpa using h)]

theorem snprintfOct_length (w n : Nat) : (snprintfOct w n).length = w + 1 := by
  simp [snprintfOct, zpad]
  omega

theorem snprintfOct_eq {w n : Nat} (h : n < 8 ^ w) (hw : 0 < w) :
    snprintfOct w n = zpad w (octDigits n) ++ [0] := by
  rw [snprintfOct, take_of_le_length (le_of_eq (zpad_length (octDigits_length h hw)))]

theorem snprintfOct_mem {w n b : Nat} (h : b ∈ snprintfOct w n) :
    b = 0 ∨ (48 ≤ b ∧ b ≤ 55) := by
  rcases List.mem_append.mp h with h2 | h2
  · rcases zpad_mem (List.take_subset _ _ h2) with h3 | h3
    · right; omega
    · exact Or.inr (octDigits_mem h3)
  · left; simpa using h2

theorem takeWhile_oct_append {l : List Nat} (h : ∀ d ∈ l, isOctDigitB d = true)
    (t : List Nat) : (l ++ 0 :: t).takeWhile isOctDigitB = l := by
  induction l with
  | nil => simp [List.takeWhile_cons, isOctDigitB]
  | cons a l ih =>
    rw [List.cons_append, List.takeWhile_cons, h a (List.mem_cons_self a l), if_pos rfl]
    rw [ih (fun d hd => h d (List.mem_cons_of_mem a hd))]

theorem storedChecksum_snprintf {n : Nat} (h : n < 8 ^ 7) :
    ovalue ((snprintfOct 7 n).takeWhile isOctDigitB) = n := by
  rw [snprintfOct_eq h (by norm_num)]
  have hall : ∀ d ∈ zpad 7 (octDigits n), isOctDigitB d = true := by
    intro d hd
    rcases zpad_mem hd with h2 | h2
    · subst h2; decide
    · exact isOctDigitB_iff.mpr (octDigits_mem h2)
  rw [show zpad 7 (octDigits n) ++ [0] = zpad 7 (octDigits n) ++ 0 :: [] from rfl]
  rw [takeWhile_oct_append hall, ovalue_zpad]
  exact octDigits_ovalue (lt_trans h (by norm_num))

theorem ovalue_snprintf_take {w n : Nat} (h : n < 8 ^ w) (hw : 0 < w) (hw64 : w ≤ 64) :
    ovalue ((snprintfOct w n).take w) = n := by
  rw [snprintfOct_eq h hw,
    take_append_eq (zpad_length (octDigits_length h hw)), ovalue_zpad]
  refine octDigits_ovalue (lt_of_lt_of_le h ?_)
  exact Nat.pow_le_pow_right (by norm_num) hw64

theorem strncpyN_length (w : Nat) (s : List Nat) : (strncpyN w s).length = w := by
  simp [strncpyN]
  omega

theorem strncpyN_mem {w b : Nat} {s : List Nat} (h : b ∈ strncpyN w s) :
    b ∈ s ∨ b = 0 := by
  rcases List.mem_append.mp h with h2 | h2
  · exact Or.inl (List.take_subset _ _ h2)
  · exact Or.inr (List.eq_of_mem_replicate h2)

/-! ## Header structure lemmas -/

theorem blankChksum_compute (h : tar_header) :
    blankChksum (compute_checksum h) = blankChksum h := by
  cases h
  simp only [blankChksum, compute_checksum]

theorem blankChksum_fill (fn : List Nat) (m : FileMeta) :
    blankChksum (fill_tar_header fn m) = blankChksum (fill_base fn m) :=
  blankChksum_compute (fill_base fn m)

theorem compute_chksum_eq (h : tar_header) :
    (compute_checksum h).chksum =
      snprintfOct 7 (csum (headerBytes (blankChksum h))) := by
  cases h
  simp only [blankChksum, compute_checksum]

theorem fill_chksum (fn : List Nat) (m : FileMeta) :
    (fill_tar_header fn m).chksum =
      snprintfOct 7 (csum (headerBytes (blankChksum (fill_base fn m)))) :=
  compute_chksum_eq (fill_base fn m)

theorem compute_size_eq (h : tar_header) : (compute_checksum h).size = h.size := by
  cases h
  simp only [compute_checksum]

theorem fill_size (fn : List Nat) (m : FileMeta) :
    (fill_tar_header fn m).size = snprintfOct 11 (m.size % 2 ^ 32) :=
  compute_size_eq (fill_base fn m)

theorem headerBytes_length_blank_fill (fn : List Nat) (m : FileMeta) :
    (headerBytes (blankChksum (fill_base fn m))).length = 512 := by
  simp [headerBytes, blankChksum, fill_base, strncpyN_length, snprintfOct_length]

theorem headerBytes_length_fill (fn : List Nat) (m : FileMeta) :
    (headerBytes (fill_tar_header fn m)).length = 512 := by
  simp [headerBytes, fill_tar_header, compute_checksum, fill_base,
    strncpyN_length, snprintfOct_length]

theorem headerBytes_blank_fill_lt128 {fn : List Nat} {m : FileMeta}
    (hn : ∀ b ∈ fn, b < 128) (hu : ∀ b ∈ m.uname, b < 128)
    (hg : ∀ b ∈ m.gname, b < 128) :
    ∀ b ∈ headerBytes (blankChksum (fill_base fn m)), b < 128 := by
  intro b hb
  simp only [headerBytes, blankChksum, fill_base, List.append_assoc,
    List.mem_append] at hb
  rcases hb with h | h | h | h | h | h | h | h | h | h | h | h | h | h | h | h
  · rcases strncpyN_mem h with h2 | h2
    · exact hn b h2
    · omega
  · rcases snprintfOct_mem h with h2 | h2 <;> omega
  · rcases snprintfOct_mem h with h2 | h2 <;> omega
  · rcases snprintfOct_mem h with h2 | h2 <;> omega
  · rcases snprintfOct_mem h with h2 | h2 <;> omega
  · rcases snprintfOct_mem h with h2 | h2 <;> omega
  · have := List.eq_of_mem_replicate h; omega
  · simp at h; omega
  · have := List.eq_of_mem_replicate h; omega
  · simp at h; rcases h with h | h | h | h | h | h <;> omega
  · simp at h; rcases h with h | h <;> omega
  · rcases strncpyN_mem h with h2 | h2
    · exact hu b h2
    · omega
  · rcases strncpyN_mem h with h2 | h2
    · exact hg b h2
    · omega
  · rcases snprintfOct_mem h with h2 | h2 <;> omega
  · rcases snprintfOct_mem h with h2 | h2 <;> omega
  · have := List.eq_of_mem_replicate h; omega

/-! ## Byte-sum lemmas -/

theorem foldl_add_eq (l : List Nat) : ∀ a : Nat, l.foldl (· + ·) a = a + l.foldl (· + ·) 0 := by
  induction l with
  | nil => simp
  | cons b l ih =>
    intro a
    simp only [List.foldl_cons]
    rw [ih (a + b), ih (0 + b)]
    omega

theorem usum_cons (b : Nat) (l : List Nat) : usum (b :: l) = b + usum l := by
  simp only [usum, List.foldl_cons]
  rw [foldl_add_eq]
  omega

theorem usum_append (l₁ l₂ : List Nat) : usum (l₁ ++ l₂) = usum l₁ + usum l₂ := by
  simp only [usum, List.foldl_append]
  rw [foldl_add_eq]

theorem usum_le {c : Nat} : ∀ {l : List Nat}, (∀ b ∈ l, b ≤ c) → usum l ≤ c * l.length := by
  intro l
  induction l with
  | nil => intro _; simp [usum]
  | cons b l ih =>
    intro h
    rw [usum_cons, List.length_cons, Nat.mul_succ]
    have hb := h b (List.mem_cons_self b l)
    have hl := ih (fun x hx => h x (List.mem_cons_of_mem b hx))
    omega

theorem foldl_signed : ∀ (l : List Nat), (∀ b ∈ l, b < 128) →
    ∀ a : Int, l.foldl (fun s b => s + signedVal b) a = a + (usum l : Int) := by
  intro l
  induction l with
  | nil => intro _ a; simp [usum]
  | cons b l ih =>
    intro h a
    have hb : signedVal b = (b : Int) := by
      simp [signedVal, h b (List.mem_cons_self b l)]
    simp only [List.foldl_cons, hb]
    rw [ih (fun x hx => h x (List.mem_cons_of_mem b hx)) (a + (b : Int)), usum_cons]
    push_cast
    ring

theorem csum_eq_usum {l : List Nat} (h : ∀ b ∈ l, b < 128) (hlt : usum l < 2 ^ 32) :
    csum l = usum l := by
  rw [csum, foldl_signed l h 0, Int.zero_add,
    Int.emod_eq_of_lt (Int.natCast_nonneg _) (by exact_mod_cast hlt)]
  simp

/-! ## Claim C1 -/

/-- C1 (counterexample): the claim fails as stated. For a file whose name
contains the byte `0xff`, the checksum `compute_checksum` stores differs from
the unsigned byte-sum of the header block with the checksum field blanked to
spaces, because the sum loop reads the bytes through a signed `char`
pointer. -/
theorem C1_checksum_counterexample :
    storedChecksum (fill_tar_header [102, 255] metaA) ≠
      usum (headerBytes (blankChksum (fill_tar_header [102, 255] metaA))) := by
  decide

/-- C1 (amended): for every header produced by `fill_tar_header` whose file
name, owner name and group name consist of bytes below `0x80`, the stored
checksum value equals the unsigned sum of all 512 raw byte values of the
header block with the checksum field's 8 bytes replaced by spaces before
summing. -/
theorem C1_checksum_invariant (fn : List Nat) (m : FileMeta)
    (hn : ∀ b ∈ fn, b < 128) (hu : ∀ b ∈ m.uname, b < 128)
    (hg : ∀ b ∈ m.gname, b < 128) :
    storedChecksum (fill_tar_header fn m) =
      usum (headerBytes (blankChksum (fill_tar_header fn m))) := by
  rw [blankChksum_fill]
  have hlt128 := headerBytes_blank_fill_lt128 hn hu hg
  have hle : usum (headerBytes (blankChksum (fill_base fn m))) ≤ 127 * 512 := by
    have := usum_le (c := 127)
      (l := headerBytes (blankChksum (fill_base fn m)))
      (fun b hb => by have := hlt128 b hb; omega)
    rwa [headerBytes_length_blank_fill] at this
  have hsum : csum (headerBytes (blankChksum (fill_base fn m))) =
      usum (headerBytes (blankChksum (fill_base fn m))) :=
    csum_eq_usum hlt128 (lt_of_le_of_lt hle (by norm_num))
  rw [storedChecksum, fill_chksum, hsum]
  exact storedChecksum_snprintf (lt_of_le_of_lt hle (by norm_num))

/-- C1 (witness): the amended claim holds at the concrete ASCII-named file
fixture. -/
theorem C1_checksum_invariant_witness :
    storedChecksum (fill_tar_header aName metaA) =
      usum (headerBytes (blankChksum (fill_tar_header aName metaA))) :=
  C1_checksum_invariant aName metaA (by decide) (by decide) (by decide)

/-! ## Claim C2 -/

/-- C2 (counterexample): the checksum field is not 6 octal digits + NUL +
space: were it, bytes 6 and 7 of the field would be `[0, 32]`, but in the
concrete header they are the seventh octal digit followed by NUL. -/
theorem C2_checksum_format_counterexample :
    (fill_tar_header aName metaA).chksum.drop 6 ≠ [0, 32] := by
  decide

theorem snprintfOct7_structure (n : Nat) :
    (snprintfOct 7 n).length = 8 ∧
    ((snprintfOct 7 n).take 7).all isOctDigitB = true ∧
    (snprintfOct 7 n).drop 7 = [0] := by
  have htl : ((zpad 7 (octDigits n)).take 7).length = 7 := by
    simp [List.length_take, zpad]
    omega
  refine ⟨snprintfOct_length 7 n, ?_, ?_⟩
  · rw [snprintfOct, take_append_eq htl, List.all_eq_true]
    intro b hb
    have hb2 := List.take_subset _ _ hb
    rcases zpad_mem hb2 with h | h
    · subst h; decide
    · exact isOctDigitB_iff.mpr (octDigits_mem h)
  · rw [snprintfOct, drop_append_eq htl]

/-- C2 (amended): in every header written by the header codec, the checksum
field is 8 bytes long and consists of 7 octal digits followed by a single
NUL byte (no trailing space: `snprintf(chksum, 8, "%07o", sum)` writes 7
digits and overwrites the eighth byte with the terminator). -/
theorem C2_checksum_format (fn : List Nat) (m : FileMeta) :
    (fill_tar_header fn m).chksum.length = 8 ∧
    ((fill_tar_header fn m).chksum.take 7).all isOctDigitB = true ∧
    (fill_tar_header fn m).chksum.drop 7 = [0] := by
  rw [fill_chksum]
  exact snprintfOct7_structure _

/-! ## Claim C8 -/

theorem snprintfOct_structure (w n : Nat) :
    (snprintfOct w n).length = w + 1 ∧
    ((snprintfOct w n).take w).all isOctDigitB = true ∧
    (snprintfOct w n).drop w = [0] := by
  have htl : ((zpad w (octDigits n)).take w).length = w := by
    simp [List.length_take, zpad]
    omega
  refine ⟨snprintfOct_length w n, ?_, ?_⟩
  · rw [snprintfOct, take_append_eq htl, List.all_eq_true]
    intro b hb
    have hb2 := List.take_subset _ _ hb
    rcases zpad_mem hb2 with h | h
    · subst h; decide
    · exact isOctDigitB_iff.mpr (octDigits_mem h)
  · rw [snprintfOct, drop_append_eq htl]

/-- C8 (counterexample): the claim fails as stated. For a 4 GiB file
(`st_size = 2 ^ 32`) the size field does not hold the 11-digit octal encoding
of the file's full content length — `"40000000000"`, which would fit in the
11 digits — because `fill_tar_header` casts `st_size` to a 32-bit
`unsigned`: the field holds `"00000000000"`, and parsing the stored digits
back yields 0, not `2 ^ 32`. -/
theorem C8_size_counterexample :
    meta32.size = 2 ^ 32 ∧
      (fill_tar_header aName meta32).size ≠ zpad 11 (octDigits (2 ^ 32)) ++ [0] ∧
      ovalue ((fill_tar_header aName meta32).size.take 11) = 0 := by
  refine ⟨rfl, ?_, ?_⟩
  · decide
  · decide

/-- C8 (amended): the size field holds the file's content byte length
reduced modulo `2 ^ 32` (the `(unsigned)` cast in the source), encoded as an
11-digit zero-padded octal ASCII string followed by a NUL terminator: the
field is 12 bytes, its first 11 bytes are octal digit characters, its last
byte is NUL, parsing the 11 digits back yields exactly `size mod 2 ^ 32`,
and for every file smaller than 4 GiB that parsed value is the file's exact
content byte length. -/
theorem C8_size_field (fn : List Nat) (m : FileMeta) :
    (fill_tar_header fn m).size = zpad 11 (octDigits (m.size % 2 ^ 32)) ++ [0] ∧
    (fill_tar_header fn m).size.length = 12 ∧
    ((fill_tar_header fn m).size.take 11).all isOctDigitB = true ∧
    (fill_tar_header fn m).size.drop 11 = [0] ∧
    ovalue ((fill_tar_header fn m).size.take 11) = m.size % 2 ^ 32 ∧
    (m.size < 2 ^ 32 → ovalue ((fill_tar_header fn m).size.take 11) = m.size) := by
  have hb : m.size % 2 ^ 32 < 8 ^ 11 :=
    lt_of_lt_of_le (Nat.mod_lt _ (by norm_num)) (by norm_num)
  have hparse : ovalue ((fill_tar_header fn m).size.take 11) = m.size % 2 ^ 32 := by
    rw [fill_size]
    exact ovalue_snprintf_take hb (by norm_num) (by norm_num)
  refine ⟨?_, ?_, ?_, ?_, hparse, ?_⟩
  · rw [fill_size, snprintfOct_eq hb (by norm_num)]
  · rw [fill_size, snprintfOct_length]
  · rw [fill_size]
    exact (snprintfOct_structure 11 _).2.1
  · rw [fill_size]
    exact (snprintfOct_structure 11 _).2.2
  · intro hlt
    rw [hparse, Nat.mod_eq_of_lt hlt]

/-- C8 (witness): the amended claim evaluated at the concrete small-file
fixture: the file is smaller than 4 GiB, so the stored digits parse back to
its exact content byte length. -/
theorem C8_size_field_witness :
    ovalue ((fill_tar_header aName metaA).size.take 11) = metaA.size :=
  (C8_size_field aName metaA).2.2.2.2.2 (by decide)

/-! ## File-system and archive-writing lemmas -/

theorem fsLookup_fsSet_self (fs : FileSys) (n : List Nat) (f : SrcFile) :
    fsLookup (fsSet fs n f) n = some f := by
  induction fs with
  | nil => simp [fsSet, fsLookup]
  | cons kg rest ih =>
    obtain ⟨k, g⟩ := kg
    by_cases hk : k = n
    · simp [fsSet, hk, fsLookup]
    · simp [fsSet, hk, fsLookup, ih]

theorem fsLookup_fsSet_ne (fs : FileSys) {n k : List Nat} (f : SrcFile)
    (hne : k ≠ n) : fsLookup (fsSet fs n f) k = fsLookup fs k := by
  have hne2 : ¬ n = k := fun h => hne h.symm
  induction fs with
  | nil =>
    simp [fsSet, fsLookup, hne2]
  | cons kg rest ih =>
    obtain ⟨k2, g⟩ := kg
    by_cases hk : k2 = n
    · subst hk
      simp [fsSet, fsLookup, hne2]
    · simp [fsSet, hk, fsLookup, ih]

theorem footerBytes_length : footerBytes.length = 1024 := by
  simp [footerBytes, BLOCK_SIZE, NUM_TRAILING_BLOCKS]

theorem padLen_mod (n : Nat) : (n + padLen n) % 512 = 0 := by
  simp only [padLen]
  omega

theorem entryBytes_length (f : SrcFile) (n : List Nat) :
    (entryBytes f n).length = 512 + f.content.length + padLen f.content.length := by
  simp [entryBytes, headerBytes_length_fill]
  omega

theorem entryBytes_mod (f : SrcFile) (n : List Nat) :
    (entryBytes f n).length % 512 = 0 := by
  rw [entryBytes_length]
  have := padLen_mod f.content.length
  omega

theorem entriesConcat_nil (fs : FileSys) : entriesConcat fs [] = [] := rfl

theorem entriesConcat_cons (fs : FileSys) (n : List Nat) (rest : List (List Nat)) :
    entriesConcat fs (n :: rest) =
      (match fsLookup fs n with
        | some f => entryBytes f n
        | none => []) ++ entriesConcat fs rest := by
  simp [entriesConcat]

theorem entriesConcat_mod (fs : FileSys) :
    ∀ files, (entriesConcat fs files).length % 512 = 0 := by
  intro files
  induction files with
  | nil => simp [entriesConcat_nil]
  | cons n rest ih =>
    rw [entriesConcat_cons]
    cases h : fsLookup fs n with
    | none => simpa [h] using ih
    | some f =>
      simp only [h, List.length_append]
      have h1 := entryBytes_mod f n
      omega

theorem create_loop_ok (fs : FileSys) :
    ∀ (files : List (List Nat)), (∀ n ∈ files, (fsLookup fs n).isSome) →
      ∀ acc, create_loop fs acc files =
        (0, acc ++ (entriesConcat fs files ++ footerBytes)) := by
  intro files
  induction files with
  | nil => intro _ acc; simp [create_loop, entriesConcat_nil]
  | cons n rest ih =>
    intro h acc
    have hn := h n (List.mem_cons_self n rest)
    cases hlk : fsLookup fs n with
    | none => rw [hlk] at hn; simp at hn
    | some f =>
      simp only [create_loop, write_file_to_archive, hlk]
      rw [ih (fun x hx => h x (List.mem_cons_of_mem n hx)) (acc ++ entryBytes f n)]
      rw [entriesConcat_cons]
      simp only [hlk]
      simp [List.append_assoc]

theorem create_loop_fst_zero (fs : FileSys) :
    ∀ (files : List (List Nat)) (acc : List Nat),
      (create_loop fs acc files).1 = 0 →
      (create_loop fs acc files).2 = acc ++ (entriesConcat fs files ++ footerBytes) := by
  intro files
  induction files with
  | nil => intro acc _; simp [create_loop, entriesConcat_nil]
  | cons n rest ih =>
    intro acc h
    cases hlk : fsLookup fs n with
    | none =>
      simp only [create_loop, write_file_to_archive, hlk] at h
      exact absurd h (by decide)
    | some f =>
      simp only [create_loop, write_file_to_archive, hlk] at h ⊢
      rw [ih (acc ++ entryBytes f n) h, entriesConcat_cons]
      simp only [hlk]
      simp [List.append_assoc]

theorem create_loop_aborts (fs : FileSys) (bad : List Nat) (post : List (List Nat))
    (hbad : fsLookup fs bad = none) :
    ∀ (pre : List (List Nat)), (∀ n ∈ pre, (fsLookup fs n).isSome) →
      ∀ acc, create_loop fs acc (pre ++ bad :: post) =
        (-1, acc ++ entriesConcat fs pre) := by
  intro pre
  induction pre with
  | nil =>
    intro _ acc
    simp [create_loop, write_file_to_archive, hbad, entriesConcat_nil]
  | cons n rest ih =>
    intro h acc
    have hn := h n (List.mem_cons_self n rest)
    cases hlk : fsLookup fs n with
    | none => rw [hlk] at hn; simp at hn
    | some f =>
      simp only [List.cons_append, create_loop, write_file_to_archive, hlk,
        List.append_eq]
      rw [ih (fun x hx => h x (List.mem_cons_of_mem n hx)) (acc ++ entryBytes f n)]
      rw [entriesConcat_cons]
      simp only [hlk]
      simp [List.append_assoc]

theorem append_loop_ex (fs : FileSys) :
    ∀ (files : List (List Nat)) (acc : List Nat),
      ∃ q, q.length % 512 = 0 ∧ append_loop fs acc files = acc ++ q := by
  intro files
  induction files with
  | nil => intro acc; exact ⟨[], by simp, by simp [append_loop]⟩
  | cons n rest ih =>
    intro acc
    cases hlk : fsLookup fs n with
    | none =>
      obtain ⟨q, hq, he⟩ := ih acc
      refine ⟨q, hq, ?_⟩
      simp only [append_loop, write_file_to_archive, hlk]
      exact he
    | some f =>
      obtain ⟨q, hq, he⟩ := ih (acc ++ entryBytes f n)
      refine ⟨entryBytes f n ++ q, ?_, ?_⟩
      · have h1 := entryBytes_mod f n
        rw [List.length_append]
        omega
      · simp only [append_loop, write_file_to_archive, hlk]
        rw [he, List.append_assoc]

theorem remove_trailing_bytes_eq (fs : FileSys) (n : List Nat) (f : SrcFile)
    (h : fsLookup fs n = some f) (nb : Nat) :
    remove_trailing_bytes fs n nb =
      (0, fsSet fs n
        { f with content := f.content.take (truncatedLen f.content.length nb) }) := by
  simp [remove_trailing_bytes, h]

theorem append_files_eq (fs : FileSys) (arch : List Nat) (files : List (List Nat))
    {a : SrcFile} (hlk : fsLookup fs arch = some a) :
    append_files_to_archive fs arch files =
      (0, fsSet
          (fsSet fs arch
            { a with content := a.content.take (truncatedLen a.content.length 1024) })
          arch
          ⟨emptyMeta,
            append_loop
              (fsSet fs arch
                { a with content := a.content.take (truncatedLen a.content.length 1024) })
              (a.content.take (truncatedLen a.content.length 1024)) files ++
              footerBytes⟩) := by
  have h1024 : BLOCK_SIZE * NUM_TRAILING_BLOCKS = 1024 := rfl
  simp only [append_files_to_archive, hlk, h1024]
  rw [remove_trailing_bytes_eq fs arch a hlk 1024]
  simp [fsLookup_fsSet_self]

theorem wfBytes_of (p : List Nat) (hp : p.length % 512 = 0) :
    wfBytes (p ++ footerBytes) := by
  refine ⟨?_, ?_, p, hp, rfl⟩
  · rw [List.length_append, footerBytes_length]
    omega
  · rw [List.length_append, footerBytes_length]
    omega

theorem append_wf (fs : FileSys) (arch : List Nat) (files : List (List Nat))
    (a : SrcFile) (p : List Nat) (hlk : fsLookup fs arch = some a)
    (hcont : a.content = p ++ footerBytes) (hp : p.length % 512 = 0) :
    ∃ f, fsLookup (append_files_to_archive fs arch files).2 arch = some f ∧
      wfBytes f.content := by
  have hlen : a.content.length = p.length + 1024 := by
    rw [hcont, List.length_append, footerBytes_length]
  have htrl : truncatedLen a.content.length 1024 = p.length := by
    rw [truncatedLen, if_neg (by omega)]
    omega
  have htr : a.content.take (truncatedLen a.content.length 1024) = p := by
    rw [htrl, hcont, take_append_eq rfl]
  rw [append_files_eq fs arch files hlk, htr]
  obtain ⟨q, hq, he⟩ :=
    append_loop_ex (fsSet fs arch { a with content := p }) files p
  rw [he]
  refine ⟨_, fsLookup_fsSet_self _ _ _, ?_⟩
  refine wfBytes_of (p ++ q) ?_
  rw [List.length_append]
  omega

/-! ## Claim C3 -/

/-- C3: after a successful create, the archive on disk is the concatenation
of the written entries followed immediately by the two all-zero footer
blocks, its byte length is a multiple of 512 and at least two blocks;
create with an empty file list produces exactly the two-block footer; and
append and update, started from any existing archive consisting of a
block-aligned payload plus the footer, leave an archive satisfying the same
footer invariant. -/
theorem C3_footer_invariant (fs : FileSys) (arch : List Nat)
    (files : List (List Nat)) :
    ((create_archive fs arch files).1 = 0 →
      ∃ f, fsLookup (create_archive fs arch files).2 arch = some f ∧
        f.content = entriesConcat fs files ++ footerBytes ∧ wfBytes f.content) ∧
    fsLookup (create_archive fs arch []).2 arch = some ⟨emptyMeta, footerBytes⟩ ∧
    (∀ a p, fsLookup fs arch = some a → a.content = p ++ footerBytes →
      p.length % 512 = 0 →
      ∃ f, fsLookup (append_files_to_archive fs arch files).2 arch = some f ∧
        wfBytes f.content) ∧
    (∀ a p, fsLookup fs arch = some a → a.content = p ++ footerBytes →
      p.length % 512 = 0 →
      ∃ f, fsLookup (update_archive fs arch files).2 arch = some f ∧
        wfBytes f.content) := by
  refine ⟨?_, ?_, ?_, ?_⟩
  · intro h0
    simp only [create_archive] at h0 ⊢
    rw [create_loop_fst_zero fs files [] h0, List.nil_append]
    exact ⟨_, fsLookup_fsSet_self _ _ _, rfl,
      wfBytes_of _ (entriesConcat_mod fs files)⟩
  · exact fsLookup_fsSet_self fs arch ⟨emptyMeta, footerBytes⟩
  · intro a p hlk hcont hp
    exact append_wf fs arch files a p hlk hcont hp
  · intro a p hlk hcont hp
    simp only [update_archive]
    by_cases hc : (files.filter fun n => file_exists_in_archive fs arch n == 0).length > 0
    · rw [if_pos hc]
      exact append_wf fs arch _ a p hlk hcont hp
    · rw [if_neg hc]
      exact ⟨a, hlk, by rw [hcont]; exact wfBytes_of p hp⟩

/-! ## Concrete evaluation of the create scenario -/

theorem entriesConcat_fs0 : entriesConcat fs0 [aName] = entryA := by
  rw [entriesConcat_cons, entriesConcat_nil]
  simp only [show fsLookup fs0 aName = some fileA from rfl]
  simp [entryA]

theorem entryA_length : entryA.length = 1024 := by
  rw [entryA, entryBytes_length]
  decide

theorem create_fs0 :
    create_archive fs0 tName [aName] =
      (0, fsSet fs0 tName ⟨emptyMeta, entryA ++ footerBytes⟩) := by
  simp only [create_archive]
  rw [create_loop_ok fs0 [aName] (by decide) []]
  simp [entriesConcat_fs0]

theorem fs1_eq : fs1 = fsSet fs0 tName ⟨emptyMeta, entryA ++ footerBytes⟩ :=
  congrArg Prod.snd create_fs0

theorem fs1_lookup_t :
    fsLookup fs1 tName = some ⟨emptyMeta, entryA ++ footerBytes⟩ := by
  rw [fs1_eq]
  exact fsLookup_fsSet_self _ _ _

theorem fs1_lookup_a : fsLookup fs1 aName = some fileA := by
  rw [fs1_eq, fsLookup_fsSet_ne _ _ (by decide)]
  rfl

/-- C3 (witness): the footer invariant, instantiated on the concrete
scenario: create an archive from the two-byte file "a", then append a
missing file (best-effort no-op), then update with "a". -/
theorem C3_footer_invariant_witness :
    (∃ f, fsLookup (create_archive fs0 tName [aName]).2 tName = some f ∧
      f.content = entriesConcat fs0 [aName] ++ footerBytes ∧ wfBytes f.content) ∧
    (∃ f, fsLookup (append_files_to_archive fs1 tName [bName]).2 tName = some f ∧
      wfBytes f.content) ∧
    (∃ f, fsLookup (update_archive fs1 tName [aName]).2 tName = some f ∧
      wfBytes f.content) := by
  refine ⟨(C3_footer_invariant fs0 tName [aName]).1 ?_,
    (C3_footer_invariant fs1 tName [bName]).2.2.1 ⟨emptyMeta, entryA ++ footerBytes⟩
      entryA fs1_lookup_t rfl ?_,
    (C3_footer_invariant fs1 tName [aName]).2.2.2 ⟨emptyMeta, entryA ++ footerBytes⟩
      entryA fs1_lookup_t rfl ?_⟩
  · rw [create_fs0]
  · rw [entryA_length]
  · rw [entryA_length]

/-! ## Claim C7 -/

/-- C7: create is all-or-nothing in control flow: when the file list is a
prefix of statable files followed by a file that cannot be statted, create
returns -1 and the archive on disk holds exactly the entries of the
successful prefix — no footer, and the files after the failure are never
attempted (the result does not depend on them). -/
theorem C7_create_all_or_nothing (fs : FileSys) (arch bad : List Nat)
    (pre post : List (List Nat))
    (hpre : ∀ n ∈ pre, (fsLookup fs n).isSome) (hbad : fsLookup fs bad = none) :
    create_archive fs arch (pre ++ bad :: post) =
      (-1, fsSet fs arch ⟨emptyMeta, entriesConcat fs pre⟩) := by
  simp only [create_archive]
  rw [create_loop_aborts fs bad post hbad pre hpre []]
  simp

/-- C7 (witness): creating from `["a", "b"]` where "b" does not exist leaves
exactly the entry for "a" (and no footer) on disk and returns -1. -/
theorem C7_create_all_or_nothing_witness :
    create_archive fs0 tName ([aName] ++ bName :: []) =
      (-1, fsSet fs0 tName ⟨emptyMeta, entriesConcat fs0 [aName]⟩) :=
  C7_create_all_or_nothing fs0 tName bName [aName] [] (by decide) (by decide)

/-! ## Claim C9 -/

/-- C9: `remove_trailing_bytes` fails (returning -1 and changing nothing)
exactly when the file cannot be statted; on an existing file it returns 0
and truncates: the new length is the old length minus `nbytes` when
`nbytes` is at most the old length, and 0 (not an error) when `nbytes`
exceeds it. -/
theorem C9_remove_trailing (fs : FileSys) (n : List Nat) (nb : Nat) :
    (fsLookup fs n = none → remove_trailing_bytes fs n nb = (-1, fs)) ∧
    (∀ f, fsLookup fs n = some f →
      (remove_trailing_bytes fs n nb).1 = 0 ∧
      ∃ f2, fsLookup (remove_trailing_bytes fs n nb).2 n = some f2 ∧
        (nb ≤ f.content.length → f2.content.length = f.content.length - nb) ∧
        (f.content.length < nb → f2.content.length = 0)) := by
  constructor
  · intro h
    simp [remove_trailing_bytes, h]
  · intro f h
    rw [remove_trailing_bytes_eq fs n f h nb]
    refine ⟨rfl, _, fsLookup_fsSet_self _ _ _, ?_, ?_⟩
    · intro hle
      have ht : truncatedLen f.content.length nb = f.content.length - nb := by
        rw [truncatedLen, if_neg (by omega)]
      simp [ht, List.length_take]
    · intro hlt
      have ht : truncatedLen f.content.length nb = 0 := by
        rw [truncatedLen, if_pos (by omega)]
      simp [ht]

/-- C9 (witness): removing 5 bytes from a missing file fails; removing 1
byte from the 2-byte file "a" leaves 1 byte; removing 7 bytes from it leaves
an empty file, with status 0. -/
theorem C9_remove_trailing_witness :
    remove_trailing_bytes [] tName 5 = (-1, []) ∧
    (remove_trailing_bytes fs0 aName 1).1 = 0 ∧
    (∃ f2, fsLookup (remove_trailing_bytes fs0 aName 1).2 aName = some f2 ∧
      f2.content.length = 1) ∧
    (∃ f3, fsLookup (remove_trailing_bytes fs0 aName 7).2 aName = some f3 ∧
      f3.content.length = 0) := by
  refine ⟨(C9_remove_trailing [] tName 5).1 rfl, ?_, ?_, ?_⟩
  · exact ((C9_remove_trailing fs0 aName 1).2 fileA rfl).1
  · obtain ⟨-, f2, hlk, hle, -⟩ := (C9_remove_trailing fs0 aName 1).2 fileA rfl
    exact ⟨f2, hlk, by rw [hle (by decide)]; decide⟩
  · obtain ⟨-, f3, hlk, -, hgt⟩ := (C9_remove_trailing fs0 aName 7).2 fileA rfl
    exact ⟨f3, hlk, hgt (by decide)⟩

/-! ## Claim C4 -/

/-- C4 (counterexample): the claim fails as stated. With too few arguments
`main` returns 0 (after printing the usage line), and an operation-level
failure also exits 0 because every operation's return value is ignored:
here `-a` on a nonexistent archive fails inside `append_files_to_archive`
(which returns -1) yet the process exit status is 0. -/
theorem C4_exit_status_counterexample :
    (mainRun [] [[109]]).1 = 0 ∧
    (mainRun [] [[109], cmd_a, tName, aName]).1 = 0 ∧
    (append_files_to_archive [] tName [aName]).1 = -1 := by
  decide

/-- C4 (amended): the exit status is 0 with fewer than 4 arguments (usage
errors from too few arguments exit 0, not non-zero), 0 for each of the five
known commands regardless of whether the dispatched operation succeeds or
fails (operation return values are ignored), and -1 only for an unknown
command. -/
theorem C4_exit_status (fs : FileSys) (argv : List (List Nat)) :
    (argv.length < 4 → (mainRun fs argv).1 = 0) ∧
    (∀ prog cmd archive f1 rest, argv = prog :: cmd :: archive :: f1 :: rest →
      ((cmd = cmd_c ∨ cmd = cmd_a ∨ cmd = cmd_t ∨ cmd = cmd_u ∨ cmd = cmd_x) →
        (mainRun fs argv).1 = 0) ∧
      (cmd ≠ cmd_c → cmd ≠ cmd_a → cmd ≠ cmd_t → cmd ≠ cmd_u → cmd ≠ cmd_x →
        (mainRun fs argv).1 = -1)) := by
  constructor
  · intro h
    rcases argv with _ | ⟨a, _ | ⟨b, _ | ⟨c, _ | ⟨d, t⟩⟩⟩⟩
    · rfl
    · rfl
    · rfl
    · rfl
    · simp [List.length_cons] at h
      omega
  · rintro prog cmd archive f1 rest rfl
    constructor
    · rintro (rfl | rfl | rfl | rfl | rfl) <;>
        simp [mainRun, cmd_c, cmd_a, cmd_t, cmd_u, cmd_x]
    · intro h1 h2 h3 h4 h5
      simp [mainRun, h1, h2, h3, h4, h5]

/-- C4 (witness): an unknown command `-z` exits -1; `-c` exits 0; a bare
single-argument call exits 0. -/
theorem C4_exit_status_witness :
    (mainRun [] [[109], [45, 122], tName, aName]).1 = -1 ∧
    (mainRun [] [[109], cmd_c, tName, aName]).1 = 0 ∧
    (mainRun [] [[109]]).1 = 0 := by
  refine ⟨?_, ?_, ?_⟩
  · exact ((C4_exit_status [] [[109], [45, 122], tName, aName]).2
      [109] [45, 122] tName aName [] rfl).2
      (by decide) (by decide) (by decide) (by decide) (by decide)
  · exact ((C4_exit_status [] [[109], cmd_c, tName, aName]).2
      [109] cmd_c tName aName [] rfl).1 (Or.inl rfl)
  · exact (C4_exit_status [] [[109]]).1 (by decide)

/-! ## Claim C6 -/

/-- C6 (counterexample): the claim fails as stated for update: the
archive-existence check in `update_archive` is commented out, so updating a
nonexistent archive with an empty file list returns 0 (success, a no-op)
instead of an error. -/
theorem C6_missing_archive_counterexample :
    fsLookup ([] : FileSys) tName = none ∧ (update_archive [] tName []).1 = 0 := by
  decide

/-- C6 (amended): on an archive path that does not name an existing file,
append fails with -1 for every file list and leaves the file system (hence
also the missing archive) untouched; update does the same for every
non-empty file list (every name tests as absent, so the whole list is handed
to append, which fails at its stat check), but with the empty list it
returns success as a no-op. -/
theorem C6_missing_archive (fs : FileSys) (arch : List Nat)
    (files : List (List Nat)) (h : fsLookup fs arch = none) :
    append_files_to_archive fs arch files = (-1, fs) ∧
    (files ≠ [] → update_archive fs arch files = (-1, fs)) := by
  constructor
  · simp [append_files_to_archive, h]
  · intro hne
    have hfe : ∀ n : List Nat, (file_exists_in_archive fs arch n == 0) = true := by
      intro n
      simp [file_exists_in_archive, file_exists, h]
    have hfilter :
        files.filter (fun n => file_exists_in_archive fs arch n == 0) = files :=
      List.filter_eq_self.mpr (fun n _ => hfe n)
    have hpos : files.length > 0 := by
      cases files with
      | nil => exact absurd rfl hne
      | cons a t => simp
    simp only [update_archive, hfilter]
    rw [if_pos hpos]
    simp [append_files_to_archive, h]

/-- C6 (witness): append and update on a missing archive with the singleton
list ["a"] both fail with -1 and leave the (empty) file system unchanged. -/
theorem C6_missing_archive_witness :
    append_files_to_archive [] tName [aName] = (-1, []) ∧
    update_archive [] tName [aName] = (-1, []) := by
  obtain ⟨h1, h2⟩ := C6_missing_archive [] tName [aName] (by decide)
  exact ⟨h1, h2 (by decide)⟩

/-! ## Scanner lemmas and Claim C10 -/

theorem feAux_scanAux (t : List Nat) :
    ∀ fuel bytes, (feAux t fuel bytes = -1 ↔ t ∈ scanAux fuel bytes) ∧
      (feAux t fuel bytes = 0 ∨ feAux t fuel bytes = -1) := by
  intro fuel
  induction fuel with
  | zero =>
    intro bytes
    refine ⟨?_, Or.inl rfl⟩
    simp [feAux, scanAux]
  | succ f ih =>
    intro bytes
    cases hr : read_tar_header bytes with
    | none => simp [feAux, scanAux, hr]
    | some ns =>
      obtain ⟨n, skip⟩ := ns
      by_cases hn : n = t
      · subst hn
        simp [feAux, scanAux, hr]
      · have hrec := ih (bytes.drop (512 + skip))
        have hnt : ¬ t = n := fun h => hn h.symm
        constructor
        · simp only [feAux, scanAux, hr]
          rw [if_neg hn]
          simp [List.mem_cons, hrec.1, hnt]
        · simp only [feAux, hr]
          rw [if_neg hn]
          exact hrec.2

/-- C10: `file_exists` returns -1 exactly when the archive can be opened
and some entry the scanner yields has a stored name equal to the target
name by exact comparison; it returns 0 in every other case — in particular
it reports absent (0), rather than failing, when the archive cannot be
opened at all — and -1 and 0 are its only possible results. -/
theorem C10_file_exists_iff (fs : FileSys) (arch fn : List Nat) :
    (file_exists fs arch fn = -1 ↔
      ∃ a, fsLookup fs arch = some a ∧ fn ∈ scanNames a.content) ∧
    (file_exists fs arch fn = 0 ∨ file_exists fs arch fn = -1) := by
  cases h : fsLookup fs arch with
  | none =>
    constructor
    · simp [file_exists, h]
    · left
      simp [file_exists, h]
  | some a =>
    have hfeq : file_exists fs arch fn = feAux fn (a.content.length + 1) a.content := by
      simp [file_exists, h]
    have hfs := feAux_scanAux fn (a.content.length + 1) a.content
    constructor
    · rw [hfeq, hfs.1]
      simp [h, scanNames]
    · rw [hfeq]
      exact hfs.2

/-! ## Claim C5 -/

theorem read_tar_header_append {b : List Nat} (hb : b.length = 512)
    (rest : List Nat) : read_tar_header (b ++ rest) = read_tar_header b := by
  rw [read_tar_header, read_tar_header]
  rw [take_append_eq hb, take_of_le_length (le_of_eq hb)]
  rw [List.length_append, hb]
  rw [if_neg (show ¬ (512 + rest.length < 512) from by omega),
    if_neg (show ¬ (512 < 512) from by omega)]

theorem entryA_split :
    entryA ++ footerBytes =
      headerBytes (fill_tar_header aName (statMeta fileA)) ++
        (fileA.content ++
          (List.replicate (padLen fileA.content.length) 0 ++ footerBytes)) := by
  rw [entryA, entryBytes, List.append_assoc, List.append_assoc]

theorem read_entryA : read_tar_header (entryA ++ footerBytes) = some (aName, 512) := by
  rw [entryA_split,
    read_tar_header_append (headerBytes_length_fill aName (statMeta fileA))]
  decide

theorem feAux_succ_hit {t bytes : List Nat} {skip : Nat}
    (h : read_tar_header bytes = some (t, skip)) (fuel : Nat) :
    feAux t (fuel + 1) bytes = -1 := by
  simp [feAux, h]

theorem file_exists_fs1_a : file_exists fs1 tName aName = -1 := by
  simp only [file_exists, fs1_lookup_t]
  exact feAux_succ_hit read_entryA _

theorem update_fs1_noop : update_archive fs1 tName [aName] = (0, fs1) := by
  have hb : (file_exists_in_archive fs1 tName aName == 0) = false := by
    rw [file_exists_in_archive, file_exists_fs1_a]
    decide
  simp only [update_archive, List.filter_cons, hb, List.filter_nil]
  simp

theorem append_content_eq (fs : FileSys) (arch : List Nat)
    (files : List (List Nat)) (a : SrcFile) (p : List Nat)
    (hlk : fsLookup fs arch = some a) (hcont : a.content = p ++ footerBytes) :
    (append_files_to_archive fs arch files).2 =
      fsSet (fsSet fs arch { a with content := p }) arch
        ⟨emptyMeta,
          append_loop (fsSet fs arch { a with content := p }) p files ++
            footerBytes⟩ := by
  have hlen : a.content.length = p.length + 1024 := by
    rw [hcont, List.length_append, footerBytes_length]
  have htrl : truncatedLen a.content.length 1024 = p.length := by
    rw [truncatedLen, if_neg (by omega)]
    omega
  have htr : a.content.take (truncatedLen a.content.length 1024) = p := by
    rw [htrl, hcont, take_append_eq rfl]
  rw [append_files_eq fs arch files hlk, htr]

theorem mainRun_u_eq :
    mainRun fs1 [[109], cmd_u, tName, aName] =
      (0, (append_files_to_archive fs1 tName [aName]).2) := by
  simp only [mainRun]
  simp [cmd_u, cmd_c, cmd_a, cmd_t, cmd_x]

theorem append_fs1_len :
    (fsLookup (append_files_to_archive fs1 tName [aName]).2 tName).map
      (fun g => g.content.length) = some 3072 := by
  rw [append_content_eq fs1 tName [aName] ⟨emptyMeta, entryA ++ footerBytes⟩
    entryA fs1_lookup_t rfl]
  have hrec :
      ({ (⟨emptyMeta, entryA ++ footerBytes⟩ : SrcFile) with content := entryA } :
        SrcFile) = ⟨emptyMeta, entryA⟩ := rfl
  rw [hrec]
  have hlkA : fsLookup (fsSet fs1 tName ⟨emptyMeta, entryA⟩) aName = some fileA := by
    rw [fsLookup_fsSet_ne _ _ (by decide), fs1_lookup_a]
  have hloop :
      append_loop (fsSet fs1 tName ⟨emptyMeta, entryA⟩) entryA [aName] =
        entryA ++ entryBytes fileA aName := by
    simp only [append_loop, write_file_to_archive, hlkA]
  rw [hloop, fsLookup_fsSet_self]
  have h2 : entryBytes fileA aName = entryA := rfl
  simp [h2, entryA_length, footerBytes_length]

/-- C5 (code-bug evidence): `update_archive` itself satisfies the claim —
updating with an already-archived name is a no-op — but `main` dispatches
the `-u` command to `append_files_to_archive` (beside the comment "check if
they already exist"), never calling `update_archive`: after `create([a])`
the archive holds 2048 bytes, and running `-u` with the same single file
grows it to 3072 bytes instead of leaving it byte-identical. -/
theorem C5_update_command_bug :
    update_archive fs1 tName [aName] = (0, fs1) ∧
    (fsLookup fs1 tName).map (fun g => g.content.length) = some 2048 ∧
    (fsLookup (mainRun fs1 [[109], cmd_u, tName, aName]).2 tName).map
      (fun g => g.content.length) = some 3072 := by
  refine ⟨update_fs1_noop, ?_, ?_⟩
  · rw [fs1_lookup_t]
    simp [List.length_append, entryA_length, footerBytes_length]
  · rw [mainRun_u_eq]
    exact append_fs1_len
